import Mathlib

/-!
Shallow embedding of `avtrust_bridge/estimator.py` (class `TrustEstimatorNode`):
the synchronizer construction in `__init__` and the synchronized-batch callback
`trks_fov_receive`.  Messages, the tf pose buffer and the trust model are
embedded with executable Lean structures; external bridge conversions are
modelled as payload extraction; side effects (logging, propagation calls, the
trust-computation invocation, the four publishes) are recorded as an event
trace so that ordering, atomicity and noninterference properties can be stated.
-/

/-- A ROS timestamp (`builtin_interfaces/Time`): seconds and nanoseconds. -/
structure RosTime where
  sec : Nat
  nsec : Nat
deriving DecidableEq

/-- `Bridge.rostime_to_time`: convert a ROS stamp to a single scalar time
(modelled in integer nanoseconds instead of float seconds; the map is the
same strictly monotone conversion). -/
def Bridge.rostime_to_time (t : RosTime) : Nat :=
  t.sec * 1000000000 + t.nsec

/-- A message header: frame id and stamp (`std_msgs/Header`). -/
structure Header where
  frame_id : String
  stamp : RosTime
deriving DecidableEq

/-- Track payloads are opaque track identifiers. -/
abbrev Tracks := List Nat

/-- FOV payloads are polygons, lists of planar points. -/
abbrev Polygon := List (Int × Int)

/-- World-frame positions. -/
abbrev Position := Int × Int × Int

/-- The payload of a subscribed message: a `BoxTrackArray` or a
`PolygonStamped` body. -/
inductive Payload where
  | tracks (ts : Tracks)
  | fov (poly : Polygon)
deriving DecidableEq

/-- A message delivered by the synchronizer: header plus payload. -/
structure Msg where
  header : Header
  payload : Payload
deriving DecidableEq

/-- `TrackBridge.tracks_to_avstack`: converts a `BoxTrackArray` message; on a
non-track message the Python call would fail with an attribute error, modelled
as `none`. -/
def TrackBridge.tracks_to_avstack (m : Msg) : Option Tracks :=
  match m.payload with
  | .tracks ts => some ts
  | .fov _ => none

/-- `GeometryBridge.polygon_to_avstack`: converts a `PolygonStamped` message;
on a non-polygon message the Python call would fail, modelled as `none`. -/
def GeometryBridge.polygon_to_avstack (m : Msg) : Option Polygon :=
  match m.payload with
  | .fov p => some p
  | .tracks _ => none

/-- One record of the tf2 buffer: a transform `world <- agent{agent}` known at
stamp `stamp` placing the agent at `pos`. -/
structure PoseRec where
  agent : Nat
  stamp : Nat
  pos : Position
deriving DecidableEq

/-- `tf_buffer.lookup_transform(..., time=Time())`: tf2 zero time returns the
latest transform available for the agent (greatest stamp, later records win
ties), or raises a lookup exception when none was ever recorded (`none`). -/
def lookupLatest (buf : List PoseRec) (agent : Nat) : Option PoseRec :=
  buf.foldl
    (fun acc r =>
      if r.agent = agent then
        match acc with
        | none => some r
        | some b => if b.stamp ≤ r.stamp then some r else some b
      else acc)
    none

/-- Modelled from the spec: the `FrameResolver` contract, which is not
implemented anywhere under `src/` — "given an agent identity and a timestamp,
returns that agent's position in the world frame as of the latest pose known
at or before that time".  Used only to compare the code's pose lookup against
the spec's words. -/
def lookupAtOrBefore (buf : List PoseRec) (agent : Nat) (t : Nat) : Option PoseRec :=
  buf.foldl
    (fun acc r =>
      if r.agent = agent ∧ r.stamp ≤ t then
        match acc with
        | none => some r
        | some b => if b.stamp ≤ r.stamp then some r else some b
      else acc)
    none

/-- The mutable trust model state (`self.model` with its `updater`): the
times to which track trust and agent trust were last propagated, plus the
external diagnostics structures on `model.measurement` (their string forms,
and whether reading/formatting them would raise). -/
structure TrustModel where
  lastPropTrack : Option Nat
  lastPropAgent : Option Nat
  diag : String
  assignDiag : String
  diagFails : Bool
deriving DecidableEq

/-- `self.model.updater.propagate_track_trust(timestamp)`. -/
def propagate_track_trust (m : TrustModel) (t : Nat) : TrustModel :=
  { m with lastPropTrack := some t }

/-- `self.model.updater.propagate_agent_trust(timestamp)`. -/
def propagate_agent_trust (m : TrustModel) (t : Nat) : TrustModel :=
  { m with lastPropAgent := some t }

/-- Outputs of the trust-computation collaborator `self.model(...)`:
agent trust, track trust, agent PSMs, track PSMs (opaque artifacts). -/
structure Outputs where
  trust_agents : Nat
  trust_tracks : Nat
  psms_agents : Nat
  psms_tracks : Nat
deriving DecidableEq

/-- The trust-computation collaborator: invoked with the propagated model and
the resolved `position_agents`, `fov_agents`, `tracks_agents`, `tracks_cc`;
may raise (`.error`). -/
abbrev ComputeFn := TrustModel → List (Nat × Position) → List (Nat × Polygon) →
    List (Nat × Tracks) → Tracks → Except Unit Outputs

/-- `TrustBridge.psm_array_to_ros`: pure conversion of a PSM artifact to its
ROS message. -/
def TrustBridge.psm_array_to_ros (x : Nat) : Nat := x

/-- `TrustBridge.trust_array_to_ros`: pure conversion of a trust artifact to
its ROS message. -/
def TrustBridge.trust_array_to_ros (x : Nat) : Nat := x

/-- Exceptions the callback can raise (Python exception sites). -/
inductive Exc where
  | notImplementedTracksFrame
  | assertionFailed
  | typeErr
  | lookupExc (agent : Nat)
  | notImplementedFovFrame
  | nameErr
  | collaboratorFailure
  | diagnosticsFailure
deriving DecidableEq

/-- Observable events of one callback execution, in order. -/
inductive Event where
  | logReceived (n : Nat)
  | poseLookup (agent : Nat)
  | propTrack (t : Nat)
  | propAgent (t : Nat)
  | computeCall
  | pubAgentPsms (v : Nat)
  | pubTrackPsms (v : Nat)
  | pubAgentTrust (v : Nat)
  | pubTrackTrust (v : Nat)
  | logDiag (s : String)
deriving DecidableEq

/-- Events that may occur before propagation (logging and pose lookups). -/
def isPreEvent : Event → Bool
  | .logReceived _ => true
  | .poseLookup _ => true
  | _ => false

/-- Events that may occur after the compute call (publishes, diagnostics). -/
def isPostEvent : Event → Bool
  | .pubAgentPsms _ => true
  | .pubTrackPsms _ => true
  | .pubAgentTrust _ => true
  | .pubTrackTrust _ => true
  | .logDiag _ => true
  | _ => false

/-- Publish events. -/
def isPub : Event → Bool
  | .pubAgentPsms _ => true
  | .pubTrackPsms _ => true
  | .pubAgentTrust _ => true
  | .pubTrackTrust _ => true
  | _ => false

/-- The node state relevant to one callback invocation. -/
structure NodeState where
  n_agents : Nat
  verbose : Bool
  tf_buffer : List PoseRec
  model : TrustModel
deriving DecidableEq

/-- The observable result of one callback invocation: the event trace, the
trust model afterwards, the inputs handed to the trust computation (empty on
early abort), and the exception that escaped, if any. -/
structure Result where
  trace : List Event
  model : TrustModel
  positions : List (Nat × Position)
  fovsUsed : List (Nat × Polygon)
  tracksUsed : List (Nat × Tracks)
  ccUsed : Tracks
  error : Option Exc
deriving DecidableEq

/-- First loop of `trks_fov_receive` over `args[: n_agents + 1]`: for index
`i < n_agents` check the frame is world (else raise `NotImplementedError`)
then convert the track message; for the remaining index take the message as
the command-center message, convert it, and assert its frame is world.
Returns the `tracks_agents` association list and the command-center message
with its converted tracks. -/
def storeTracksAux (n : Nat) (i : Nat) (msgs : List Msg) :
    Except Exc (List (Nat × Tracks) × Option (Msg × Tracks)) :=
  match msgs with
  | [] => .ok ([], none)
  | msg :: rest =>
    if i < n then
      if msg.header.frame_id ≠ "world" then
        .error .notImplementedTracksFrame
      else
        match TrackBridge.tracks_to_avstack msg with
        | none => .error .typeErr
        | some ts =>
          match storeTracksAux n (i + 1) rest with
          | .error e => .error e
          | .ok (acc, cc) => .ok ((i, ts) :: acc, cc)
    else
      match TrackBridge.tracks_to_avstack msg with
      | none => .error .typeErr
      | some ts =>
        if msg.header.frame_id ≠ "world" then
          .error .assertionFailed
        else
          match storeTracksAux n (i + 1) rest with
          | .error e => .error e
          | .ok (acc, ccRest) =>
            .ok (acc, match ccRest with
                      | some cc => some cc
                      | none => some (msg, ts))

/-- Second loop of `trks_fov_receive` over `args[n_agents + 1 : 2 * n_agents + 1]`:
for each index convert the FOV message, check its frame is world (else raise
`NotImplementedError`), then look up the agent's latest transform (raises when
none is recorded).  Returns the emitted pose-lookup events and, on success,
the `fov_agents` and `position_agents` association lists. -/
def storeFovsAux (buf : List PoseRec) (i : Nat) (msgs : List Msg) :
    List Event × Except Exc (List (Nat × Polygon) × List (Nat × Position)) :=
  match msgs with
  | [] => ([], .ok ([], []))
  | msg :: rest =>
    match GeometryBridge.polygon_to_avstack msg with
    | none => ([], .error .typeErr)
    | some poly =>
      if msg.header.frame_id ≠ "world" then
        ([], .error .notImplementedFovFrame)
      else
        match lookupLatest buf i with
        | none => ([.poseLookup i], .error (.lookupExc i))
        | some rec =>
          match storeFovsAux buf (i + 1) rest with
          | (ev, .error e) => (.poseLookup i :: ev, .error e)
          | (ev, .ok (fovs, poss)) =>
            (.poseLookup i :: ev, .ok ((i, poly) :: fovs, (i, rec.pos) :: poss))

/-- Tail of `trks_fov_receive` from the propagation calls on: propagate track
trust then agent trust to the batch timestamp, invoke the trust computation,
convert and publish the four outputs, then (verbose only) log the measurement
diagnostics — whose read may raise, uncaught. -/
def runCore (verbose : Bool) (compute : ComputeFn) (m : TrustModel) (t : Nat)
    (pos : List (Nat × Position)) (fov : List (Nat × Polygon))
    (trk : List (Nat × Tracks)) (cc : Tracks) :
    List Event × TrustModel × Option Exc :=
  let m2 := propagate_agent_trust (propagate_track_trust m t) t
  match compute m2 pos fov trk cc with
  | .error _ =>
    ([.propTrack t, .propAgent t, .computeCall], m2, some .collaboratorFailure)
  | .ok o =>
    let pubs : List Event :=
      [.pubAgentPsms (TrustBridge.psm_array_to_ros o.psms_agents),
       .pubTrackPsms (TrustBridge.psm_array_to_ros o.psms_tracks),
       .pubAgentTrust (TrustBridge.trust_array_to_ros o.trust_agents),
       .pubTrackTrust (TrustBridge.trust_array_to_ros o.trust_tracks)]
    if verbose then
      if m2.diagFails then
        ([.propTrack t, .propAgent t, .computeCall] ++ pubs, m2,
         some .diagnosticsFailure)
      else
        ([.propTrack t, .propAgent t, .computeCall] ++ pubs
           ++ [.logDiag m2.diag, .logDiag m2.assignDiag], m2, none)
    else
      ([.propTrack t, .propAgent t, .computeCall] ++ pubs, m2, none)

/-- The initial verbose log event of the callback. -/
def ev0 (st : NodeState) (args : List Msg) : List Event :=
  if st.verbose then [.logReceived args.length] else []

/-- The first storage loop applied to the callback's track-message slice
`args[: n_agents + 1]`. -/
def trkPhase (st : NodeState) (args : List Msg) :
    Except Exc (List (Nat × Tracks) × Option (Msg × Tracks)) :=
  storeTracksAux st.n_agents 0 (args.take (st.n_agents + 1))

/-- The second storage loop applied to the callback's FOV-message slice
`args[n_agents + 1 : 2 * n_agents + 1]`. -/
def fovPhase (st : NodeState) (args : List Msg) :
    List Event × Except Exc (List (Nat × Polygon) × List (Nat × Position)) :=
  storeFovsAux st.tf_buffer 0 ((args.drop (st.n_agents + 1)).take st.n_agents)

/-- `TrustEstimatorNode.trks_fov_receive(self, *args)`: the synchronized-batch
callback.  Slices `args` into the `n_agents + 1` track messages and the
`n_agents` FOV messages, stores them (raising on frame mismatches), resolves
poses, then propagates trust at the command-center stamp, runs the trust
computation and publishes, as in the source, recording events in order. -/
def trks_fov_receive (st : NodeState) (compute : ComputeFn) (args : List Msg) :
    Result :=
  match trkPhase st args with
  | .error e => ⟨ev0 st args, st.model, [], [], [], [], some e⟩
  | .ok (trk, ccOpt) =>
    match (fovPhase st args).2 with
    | .error e => ⟨ev0 st args ++ (fovPhase st args).1, st.model, [], [], [], [], some e⟩
    | .ok (fov, pos) =>
      match ccOpt with
      | none =>
        ⟨ev0 st args ++ (fovPhase st args).1, st.model, [], [], [], [], some .nameErr⟩
      | some (cc_msg, cc_trk) =>
        let t := Bridge.rostime_to_time cc_msg.header.stamp
        let core := runCore st.verbose compute st.model t pos fov trk cc_trk
        ⟨ev0 st args ++ (fovPhase st args).1 ++ core.1, core.2.1,
         pos, fov, trk, cc_trk, core.2.2⟩

/-- Process one batch and thread the model state into the node. -/
def processBatch (st : NodeState) (compute : ComputeFn) (args : List Msg) :
    Result × NodeState :=
  let r := trks_fov_receive st compute args
  (r, { st with model := r.model })

/-- The role of one synchronized channel. -/
inductive ChannelKind where
  | agentTracks (i : Nat)
  | ccTracks
  | agentFov (i : Nat)
deriving DecidableEq

/-- The `ApproximateTimeSynchronizer` configuration built in
`TrustEstimatorNode.__init__`. -/
structure SyncConfig where
  channels : List ChannelKind
  queue_size : Nat
  slop : ℚ
deriving DecidableEq

/-- `__init__`: the synchronizer is constructed over
`tuple(self.subscriber_trks.values()) + tuple(self.subscriber_fovs.values())`
— agent track channels 0..n-1 in insertion order, then the command-center
track channel, then agent FOV channels 0..n-1 — with `queue_size=10` and
`slop=0.05`. -/
def TrustEstimatorNode.makeSynchronizer (n_agents : Nat) : SyncConfig :=
  { channels :=
      ((List.range n_agents).map ChannelKind.agentTracks)
        ++ [ChannelKind.ccTracks]
        ++ ((List.range n_agents).map ChannelKind.agentFov)
    queue_size := 10
    slop := 5 / 100 }

/-! ### Structural lemmas about the storage loops -/

theorem storeFovsAux_events (buf : List PoseRec) (msgs : List Msg) :
    ∀ i, ∀ e ∈ (storeFovsAux buf i msgs).1, ∃ j, e = Event.poseLookup j := by
  induction msgs with
  | nil => intro i e he; simp [storeFovsAux] at he
  | cons msg rest ih =>
    intro i e he
    rw [storeFovsAux] at he
    split at he
    · simp at he
    · split at he
      · simp at he
      · split at he
        · simp at he; exact ⟨i, he⟩
        · split at he
          · rename_i ev e' heq
            simp at he
            rcases he with he | he
            · exact ⟨i, he⟩
            · exact ih (i + 1) e (by rw [heq]; exact he)
          · rename_i ev fovs poss heq
            simp at he
            rcases he with he | he
            · exact ⟨i, he⟩
            · exact ih (i + 1) e (by rw [heq]; exact he)

theorem storeTracksAux_ok_frames (n : Nat) (msgs : List Msg) :
    ∀ i p, storeTracksAux n i msgs = .ok p →
      ∀ m ∈ msgs, m.header.frame_id = "world" := by
  induction msgs with
  | nil => intro i p _ m hm; simp at hm
  | cons msg rest ih =>
    intro i p h m hm
    rw [storeTracksAux] at h
    rcases List.mem_cons.mp hm with rfl | hm
    · split at h
      · split at h
        · exact absurd h (by simp)
        · simp_all
      · split at h
        · exact absurd h (by simp)
        · split at h
          · exact absurd h (by simp)
          · simp_all
    · split at h
      · split at h
        · exact absurd h (by simp)
        · split at h
          · exact absurd h (by simp)
          · split at h
            · exact absurd h (by simp)
            · exact ih (i + 1) _ (by assumption) m hm
      · split at h
        · exact absurd h (by simp)
        · split at h
          · exact absurd h (by simp)
          · split at h
            · exact absurd h (by simp)
            · exact ih (i + 1) _ (by assumption) m hm

theorem storeFovsAux_ok_frames (buf : List PoseRec) (msgs : List Msg) :
    ∀ i p, (storeFovsAux buf i msgs).2 = .ok p →
      ∀ m ∈ msgs, m.header.frame_id = "world" := by
  induction msgs with
  | nil => intro i p _ m hm; simp at hm
  | cons msg rest ih =>
    intro i p h m hm
    rw [storeFovsAux] at h
    rcases List.mem_cons.mp hm with rfl | hm
    · split at h
      · simp at h
      · split at h
        · simp at h
        · simp_all
    · split at h
      · simp at h
      · split at h
        · simp at h
        · split at h
          · simp at h
          · split at h
            · simp at h
            · rename_i ev fovs poss heq
              exact ih (i + 1) (fovs, poss) (by rw [heq]) m hm

theorem tracks_to_avstack_eq_some {m : Msg} {ts : Tracks}
    (h : TrackBridge.tracks_to_avstack m = some ts) : m.payload = .tracks ts := by
  cases hp : m.payload with
  | tracks ts' =>
    simp [TrackBridge.tracks_to_avstack, hp] at h
    rw [h]
  | fov p =>
    simp [TrackBridge.tracks_to_avstack, hp] at h

theorem polygon_to_avstack_eq_some {m : Msg} {p : Polygon}
    (h : GeometryBridge.polygon_to_avstack m = some p) : m.payload = .fov p := by
  cases hp : m.payload with
  | tracks ts' =>
    simp [GeometryBridge.polygon_to_avstack, hp] at h
  | fov p' =>
    simp [GeometryBridge.polygon_to_avstack, hp] at h
    rw [h]

theorem storeTracksAux_cc (n : Nat) (msgs : List Msg) :
    ∀ i trk cc ts, msgs.length ≤ n + 1 - i →
      storeTracksAux n i msgs = .ok (trk, some (cc, ts)) →
      msgs.get? (n - i) = some cc ∧ cc.payload = .tracks ts ∧
        cc.header.frame_id = "world" := by
  induction msgs with
  | nil => intro i trk cc ts _ h; simp [storeTracksAux] at h
  | cons msg rest ih =>
    intro i trk cc ts hlen h
    rw [storeTracksAux] at h
    split at h
    · rename_i hin
      split at h
      · exact absurd h (by simp)
      · split at h
        · exact absurd h (by simp)
        · split at h
          · exact absurd h (by simp)
          · rename_i acc ccR heq
            simp only [Except.ok.injEq, Prod.mk.injEq] at h
            obtain ⟨-, hcc⟩ := h
            have hlen' : rest.length ≤ n + 1 - (i + 1) := by
              simp at hlen; omega
            have := ih (i + 1) acc cc ts hlen' (by rw [heq, hcc])
            have hni : n - i = (n - (i + 1)) + 1 := by omega
            rw [hni]
            exact ⟨this.1, this.2.1, this.2.2⟩
    · rename_i hin
      split at h
      · exact absurd h (by simp)
      · rename_i ts' hconv
        split at h
        · exact absurd h (by simp)
        · rename_i hframe
          split at h
          · exact absurd h (by simp)
          · rename_i acc ccR heq
            have hrest : rest = [] := by
              simp at hlen
              have : rest.length = 0 := by omega
              exact List.length_eq_zero.mp this
            subst hrest
            simp [storeTracksAux] at heq
            obtain ⟨rfl, rfl⟩ := heq
            simp only [Except.ok.injEq, Prod.mk.injEq] at h
            obtain ⟨-, hcc⟩ := h
            simp only [Option.some.injEq, Prod.mk.injEq] at hcc
            obtain ⟨rfl, rfl⟩ := hcc
            have h0 : n - i = 0 := by omega
            rw [h0]
            refine ⟨rfl, tracks_to_avstack_eq_some hconv, ?_⟩
            simpa using hframe

theorem storeTracksAux_get (n : Nat) (msgs : List Msg) :
    ∀ i trk ccOpt, storeTracksAux n i msgs = .ok (trk, ccOpt) →
      ∀ j, i + j < n → j < msgs.length →
        ∃ m ts, msgs.get? j = some m ∧ m.payload = .tracks ts ∧
          trk.get? j = some (i + j, ts) := by
  induction msgs with
  | nil => intro i trk ccOpt _ j _ hj; simp at hj
  | cons msg rest ih =>
    intro i trk ccOpt h j hij hj
    rw [storeTracksAux] at h
    split at h
    · rename_i hin
      split at h
      · exact absurd h (by simp)
      · split at h
        · exact absurd h (by simp)
        · rename_i ts' hconv
          split at h
          · exact absurd h (by simp)
          · rename_i acc ccR heq
            simp only [Except.ok.injEq, Prod.mk.injEq] at h
            obtain ⟨htrk, -⟩ := h
            cases j with
            | zero =>
              refine ⟨msg, ts', rfl, tracks_to_avstack_eq_some hconv, ?_⟩
              rw [← htrk]
              rfl
            | succ j' =>
              have := ih (i + 1) acc ccR heq j' (by omega) (by simpa using hj)
              obtain ⟨m, ts, hm, hpl, hget⟩ := this
              refine ⟨m, ts, by simpa using hm, hpl, ?_⟩
              rw [← htrk]
              have : i + (j' + 1) = i + 1 + j' := by omega
              rw [this]
              simpa using hget
    · rename_i hin
      omega

theorem storeTracksAux_length (n : Nat) (msgs : List Msg) :
    ∀ i trk ccOpt, storeTracksAux n i msgs = .ok (trk, ccOpt) →
      trk.length = min msgs.length (n - i) := by
  induction msgs with
  | nil =>
    intro i trk ccOpt h
    simp [storeTracksAux] at h
    obtain ⟨rfl, -⟩ := h
    simp
  | cons msg rest ih =>
    intro i trk ccOpt h
    rw [storeTracksAux] at h
    split at h
    · rename_i hin
      split at h
      · exact absurd h (by simp)
      · split at h
        · exact absurd h (by simp)
        · split at h
          · exact absurd h (by simp)
          · rename_i acc ccR heq
            simp only [Except.ok.injEq, Prod.mk.injEq] at h
            obtain ⟨htrk, -⟩ := h
            rw [← htrk]
            have := ih (i + 1) acc ccR heq
            simp only [List.length_cons, this]
            omega
    · rename_i hin
      split at h
      · exact absurd h (by simp)
      · split at h
        · exact absurd h (by simp)
        · split at h
          · exact absurd h (by simp)
          · rename_i acc ccR heq
            simp only [Except.ok.injEq, Prod.mk.injEq] at h
            obtain ⟨htrk, -⟩ := h
            rw [← htrk]
            have := ih (i + 1) acc ccR heq
            simp only [this]
            omega

theorem storeFovsAux_get (buf : List PoseRec) (msgs : List Msg) :
    ∀ i fovs poss, (storeFovsAux buf i msgs).2 = .ok (fovs, poss) →
      ∀ j, j < msgs.length →
        ∃ m p rec, msgs.get? j = some m ∧ m.payload = .fov p ∧
          fovs.get? j = some (i + j, p) ∧ lookupLatest buf (i + j) = some rec ∧
          poss.get? j = some (i + j, rec.pos) := by
  induction msgs with
  | nil => intro i fovs poss _ j hj; simp at hj
  | cons msg rest ih =>
    intro i fovs poss h j hj
    rw [storeFovsAux] at h
    split at h
    · simp at h
    · rename_i poly hconv
      split at h
      · simp at h
      · split at h
        · simp at h
        · rename_i rec hlook
          split at h
          · simp at h
          · rename_i ev fovs' poss' heq
            simp only [Except.ok.injEq, Prod.mk.injEq] at h
            obtain ⟨hf, hp⟩ := h
            cases j with
            | zero =>
              refine ⟨msg, poly, rec, rfl, polygon_to_avstack_eq_some hconv, ?_, ?_, ?_⟩
              · rw [← hf]; rfl
              · simpa using hlook
              · rw [← hp]; rfl
            | succ j' =>
              have hrec : (storeFovsAux buf (i + 1) rest).2 = .ok (fovs', poss') := by
                rw [heq]
              have := ih (i + 1) fovs' poss' hrec j' (by simpa using hj)
              obtain ⟨m, p, rc, hm, hpl, hg1, hg2, hg3⟩ := this
              have harith : i + (j' + 1) = i + 1 + j' := by omega
              refine ⟨m, p, rc, by simpa using hm, hpl, ?_, ?_, ?_⟩
              · rw [← hf, harith]; simpa using hg1
              · rw [harith]; exact hg2
              · rw [← hp, harith]; simpa using hg3

theorem storeFovsAux_length (buf : List PoseRec) (msgs : List Msg) :
    ∀ i fovs poss, (storeFovsAux buf i msgs).2 = .ok (fovs, poss) →
      fovs.length = msgs.length ∧ poss.length = msgs.length := by
  induction msgs with
  | nil =>
    intro i fovs poss h
    simp [storeFovsAux] at h
    obtain ⟨rfl, rfl⟩ := h
    simp
  | cons msg rest ih =>
    intro i fovs poss h
    rw [storeFovsAux] at h
    split at h
    · simp at h
    · split at h
      · simp at h
      · split at h
        · simp at h
        · split at h
          · simp at h
          · rename_i ev fovs' poss' heq
            simp only [Except.ok.injEq, Prod.mk.injEq] at h
            obtain ⟨hf, hp⟩ := h
            have := ih (i + 1) fovs' poss' (by rw [heq])
            rw [← hf, ← hp]
            simp [this.1, this.2]

theorem storeFovsAux_pos_mem (buf : List PoseRec) (msgs : List Msg) :
    ∀ i fovs poss, (storeFovsAux buf i msgs).2 = .ok (fovs, poss) →
      ∀ a p, (a, p) ∈ poss →
        ∃ rec, lookupLatest buf a = some rec ∧ p = rec.pos := by
  induction msgs with
  | nil =>
    intro i fovs poss h a p hp
    simp [storeFovsAux] at h
    obtain ⟨-, rfl⟩ := h
    simp at hp
  | cons msg rest ih =>
    intro i fovs poss h a p hmem
    rw [storeFovsAux] at h
    split at h
    · simp at h
    · split at h
      · simp at h
      · split at h
        · simp at h
        · rename_i rec hlook
          split at h
          · simp at h
          · rename_i ev fovs' poss' heq
            simp only [Except.ok.injEq, Prod.mk.injEq] at h
            obtain ⟨-, hp⟩ := h
            rw [← hp] at hmem
            rcases List.mem_cons.mp hmem with heqp | hmem'
            · obtain ⟨rfl, rfl⟩ := Prod.mk.injEq .. ▸ heqp
              exact ⟨rec, by simpa using hlook, rfl⟩
            · exact ih (i + 1) fovs' poss' (by rw [heq]) a p hmem'

/-! ### Lemmas about the propagate-compute-publish core -/

theorem runCore_model (v : Bool) (c : ComputeFn) (m : TrustModel) (t : Nat)
    (pos : List (Nat × Position)) (fov : List (Nat × Polygon))
    (trk : List (Nat × Tracks)) (cc : Tracks) :
    (runCore v c m t pos fov trk cc).2.1 =
      { m with lastPropTrack := some t, lastPropAgent := some t } := by
  simp only [runCore]
  split
  · rfl
  · split
    · split
      · rfl
      · rfl
    · rfl

theorem runCore_trace (v : Bool) (c : ComputeFn) (m : TrustModel) (t : Nat)
    (pos : List (Nat × Position)) (fov : List (Nat × Polygon))
    (trk : List (Nat × Tracks)) (cc : Tracks) :
    ∃ rest, (runCore v c m t pos fov trk cc).1 =
      Event.propTrack t :: Event.propAgent t :: Event.computeCall :: rest ∧
      ∀ e ∈ rest, isPostEvent e = true := by
  simp only [runCore]
  split
  · exact ⟨[], rfl, by simp⟩
  · split
    · split
      · refine ⟨_, rfl, ?_⟩
        intro e he
        simp at he
        rcases he with rfl | rfl | rfl | rfl <;> rfl
      · refine ⟨_, rfl, ?_⟩
        intro e he
        simp at he
        rcases he with rfl | rfl | rfl | rfl | rfl | rfl <;> rfl
    · refine ⟨_, rfl, ?_⟩
      intro e he
      simp at he
      rcases he with rfl | rfl | rfl | rfl <;> rfl

theorem runCore_compute_error (v : Bool) (c : ComputeFn) (m : TrustModel) (t : Nat)
    (pos : List (Nat × Position)) (fov : List (Nat × Polygon))
    (trk : List (Nat × Tracks)) (cc : Tracks)
    (h : c (propagate_agent_trust (propagate_track_trust m t) t) pos fov trk cc
      = .error ()) :
    runCore v c m t pos fov trk cc =
      ([.propTrack t, .propAgent t, .computeCall],
       propagate_agent_trust (propagate_track_trust m t) t,
       some .collaboratorFailure) := by
  simp only [runCore, h]

theorem runCore_pubs_ok (v : Bool) (c : ComputeFn) (m : TrustModel) (t : Nat)
    (pos : List (Nat × Position)) (fov : List (Nat × Polygon))
    (trk : List (Nat × Tracks)) (cc : Tracks) (o : Outputs)
    (h : c (propagate_agent_trust (propagate_track_trust m t) t) pos fov trk cc
      = .ok o) :
    (runCore v c m t pos fov trk cc).1.filter isPub =
      [.pubAgentPsms (TrustBridge.psm_array_to_ros o.psms_agents),
       .pubTrackPsms (TrustBridge.psm_array_to_ros o.psms_tracks),
       .pubAgentTrust (TrustBridge.trust_array_to_ros o.trust_agents),
       .pubTrackTrust (TrustBridge.trust_array_to_ros o.trust_tracks)] := by
  simp only [runCore, h]
  split
  · split
    · simp [List.filter, isPub]
    · simp [List.filter, isPub]
  · simp [List.filter, isPub]

theorem runCore_collab_inv (v : Bool) (c : ComputeFn) (m : TrustModel) (t : Nat)
    (pos : List (Nat × Position)) (fov : List (Nat × Polygon))
    (trk : List (Nat × Tracks)) (cc : Tracks)
    (h : (runCore v c m t pos fov trk cc).2.2 = some .collaboratorFailure) :
    c (propagate_agent_trust (propagate_track_trust m t) t) pos fov trk cc
      = .error () := by
  rcases hc : c (propagate_agent_trust (propagate_track_trust m t) t) pos fov trk cc
    with u | o
  · cases u; rfl
  · exfalso
    simp only [runCore, hc] at h
    split at h
    · split at h
      · simp at h
      · simp at h
    · simp at h

theorem runCore_diag_inv (v : Bool) (c : ComputeFn) (m : TrustModel) (t : Nat)
    (pos : List (Nat × Position)) (fov : List (Nat × Polygon))
    (trk : List (Nat × Tracks)) (cc : Tracks)
    (h : (runCore v c m t pos fov trk cc).2.2 = some .diagnosticsFailure) :
    ∃ o, c (propagate_agent_trust (propagate_track_trust m t) t) pos fov trk cc
      = .ok o ∧ v = true := by
  rcases hc : c (propagate_agent_trust (propagate_track_trust m t) t) pos fov trk cc
    with u | o
  · exfalso
    cases u
    simp only [runCore, hc] at h
    simp at h
  · refine ⟨o, rfl, ?_⟩
    cases v
    · exfalso
      simp only [runCore, hc] at h
      simp at h
    · rfl

theorem runCore_error_none_pubs (v : Bool) (c : ComputeFn) (m : TrustModel) (t : Nat)
    (pos : List (Nat × Position)) (fov : List (Nat × Polygon))
    (trk : List (Nat × Tracks)) (cc : Tracks)
    (h : (runCore v c m t pos fov trk cc).2.2 ≠ some .collaboratorFailure) :
    ∃ o, c (propagate_agent_trust (propagate_track_trust m t) t) pos fov trk cc
      = .ok o := by
  rcases hc : c (propagate_agent_trust (propagate_track_trust m t) t) pos fov trk cc
    with u | o
  · exfalso
    cases u
    exact h (by rw [runCore_compute_error v c m t pos fov trk cc hc])
  · exact ⟨o, rfl⟩

theorem runCore_filter_pub_verbose (c : ComputeFn) (m : TrustModel) (t : Nat)
    (pos : List (Nat × Position)) (fov : List (Nat × Polygon))
    (trk : List (Nat × Tracks)) (cc : Tracks) :
    (runCore true c m t pos fov trk cc).1.filter isPub =
      (runCore false c m t pos fov trk cc).1.filter isPub := by
  rcases hc : c (propagate_agent_trust (propagate_track_trust m t) t) pos fov trk cc
    with u | o
  · cases u
    rw [runCore_compute_error true c m t pos fov trk cc hc,
        runCore_compute_error false c m t pos fov trk cc hc]
  · rw [runCore_pubs_ok true c m t pos fov trk cc o hc,
        runCore_pubs_ok false c m t pos fov trk cc o hc]

/-! ### Inversion of the callback -/

theorem receive_cases (st : NodeState) (compute : ComputeFn) (args : List Msg) :
    (∃ e, trkPhase st args = .error e ∧
      trks_fov_receive st compute args =
        ⟨ev0 st args, st.model, [], [], [], [], some e⟩) ∨
    (∃ trk ccOpt e, trkPhase st args = .ok (trk, ccOpt) ∧
      (fovPhase st args).2 = .error e ∧
      trks_fov_receive st compute args =
        ⟨ev0 st args ++ (fovPhase st args).1, st.model, [], [], [], [], some e⟩) ∨
    (∃ trk fov pos, trkPhase st args = .ok (trk, none) ∧
      (fovPhase st args).2 = .ok (fov, pos) ∧
      trks_fov_receive st compute args =
        ⟨ev0 st args ++ (fovPhase st args).1, st.model, [], [], [], [],
         some .nameErr⟩) ∨
    (∃ trk cc_msg cc_trk fov pos,
      trkPhase st args = .ok (trk, some (cc_msg, cc_trk)) ∧
      (fovPhase st args).2 = .ok (fov, pos) ∧
      trks_fov_receive st compute args =
        ⟨ev0 st args ++ (fovPhase st args).1 ++
          (runCore st.verbose compute st.model
            (Bridge.rostime_to_time cc_msg.header.stamp) pos fov trk cc_trk).1,
         (runCore st.verbose compute st.model
            (Bridge.rostime_to_time cc_msg.header.stamp) pos fov trk cc_trk).2.1,
         pos, fov, trk, cc_trk,
         (runCore st.verbose compute st.model
            (Bridge.rostime_to_time cc_msg.header.stamp) pos fov trk cc_trk).2.2⟩) := by
  rcases h1 : trkPhase st args with e | ⟨trk, ccOpt⟩
  · exact Or.inl ⟨e, rfl, by rw [trks_fov_receive, h1]⟩
  · rcases h2 : (fovPhase st args).2 with e | ⟨fov, pos⟩
    · refine Or.inr (Or.inl ⟨trk, ccOpt, e, rfl, rfl, ?_⟩)
      rw [trks_fov_receive, h1, h2]
    · rcases ccOpt with - | ⟨cc_msg, cc_trk⟩
      · refine Or.inr (Or.inr (Or.inl ⟨trk, fov, pos, rfl, rfl, ?_⟩))
        rw [trks_fov_receive, h1, h2]
      · refine Or.inr (Or.inr (Or.inr ⟨trk, cc_msg, cc_trk, fov, pos, rfl, rfl, ?_⟩))
        rw [trks_fov_receive, h1, h2]

/-! ### Utility lemmas for the claim proofs -/

theorem ev0_mem (st : NodeState) (args : List Msg) :
    ∀ e ∈ ev0 st args, ∃ k, e = Event.logReceived k := by
  intro e he
  unfold ev0 at he
  split at he
  · simp at he
    exact ⟨args.length, he⟩
  · simp at he

theorem fovPhase_mem (st : NodeState) (args : List Msg) :
    ∀ e ∈ (fovPhase st args).1, ∃ j, e = Event.poseLookup j :=
  fun e he => storeFovsAux_events st.tf_buffer _ 0 e he

theorem pre_filter_pub (st : NodeState) (args : List Msg) :
    (ev0 st args ++ (fovPhase st args).1).filter isPub = [] := by
  rw [List.filter_eq_nil]
  intro e he
  rcases List.mem_append.mp he with h | h
  · obtain ⟨k, rfl⟩ := ev0_mem st args e h
    simp [isPub]
  · obtain ⟨j, rfl⟩ := fovPhase_mem st args e h
    simp [isPub]

theorem ev0_filter_pub (st : NodeState) (args : List Msg) :
    (ev0 st args).filter isPub = [] := by
  rw [List.filter_eq_nil]
  intro e he
  obtain ⟨k, rfl⟩ := ev0_mem st args e he
  simp [isPub]

theorem pre_not_prop (st : NodeState) (args : List Msg) (t : Nat) :
    Event.propTrack t ∉ ev0 st args ++ (fovPhase st args).1 ∧
    Event.propAgent t ∉ ev0 st args ++ (fovPhase st args).1 ∧
    Event.computeCall ∉ ev0 st args ++ (fovPhase st args).1 := by
  refine ⟨?_, ?_, ?_⟩ <;> intro h <;> rcases List.mem_append.mp h with h | h <;>
    first
      | (obtain ⟨k, hk⟩ := ev0_mem st args _ h; simp at hk)
      | (obtain ⟨j, hj⟩ := fovPhase_mem st args _ h; simp at hj)

theorem pre_all_preEvent (st : NodeState) (args : List Msg) :
    ∀ e ∈ ev0 st args ++ (fovPhase st args).1, isPreEvent e = true := by
  intro e he
  rcases List.mem_append.mp he with h | h
  · obtain ⟨k, rfl⟩ := ev0_mem st args e h
    rfl
  · obtain ⟨j, rfl⟩ := fovPhase_mem st args e h
    rfl

theorem storeTracksAux_error_mem (n : Nat) (msgs : List Msg) :
    ∀ i e, storeTracksAux n i msgs = .error e →
      e = .notImplementedTracksFrame ∨ e = .typeErr ∨ e = .assertionFailed := by
  induction msgs with
  | nil => intro i e h; simp [storeTracksAux] at h
  | cons msg rest ih =>
    intro i e h
    rw [storeTracksAux] at h
    split at h
    · split at h
      · injection h with h
        exact Or.inl h.symm
      · split at h
        · injection h with h
          exact Or.inr (Or.inl h.symm)
        · split at h
          · rename_i e' heq
            injection h with h
            exact h ▸ ih (i + 1) e' heq
          · exact absurd h (by simp)
    · split at h
      · injection h with h
        exact Or.inr (Or.inl h.symm)
      · split at h
        · injection h with h
          exact Or.inr (Or.inr h.symm)
        · split at h
          · rename_i e' heq
            injection h with h
            exact h ▸ ih (i + 1) e' heq
          · exact absurd h (by simp)

theorem storeFovsAux_error_mem (buf : List PoseRec) (msgs : List Msg) :
    ∀ i e, (storeFovsAux buf i msgs).2 = .error e →
      e = .typeErr ∨ e = .notImplementedFovFrame ∨ ∃ j, e = .lookupExc j := by
  induction msgs with
  | nil => intro i e h; simp [storeFovsAux] at h
  | cons msg rest ih =>
    intro i e h
    rw [storeFovsAux] at h
    split at h
    · simp only at h
      injection h with h
      exact Or.inl h.symm
    · split at h
      · simp only at h
        injection h with h
        exact Or.inr (Or.inl h.symm)
      · split at h
        · simp only at h
          injection h with h
          exact Or.inr (Or.inr ⟨i, h.symm⟩)
        · split at h
          · rename_i ev e' heq
            simp only at h
            injection h with h
            refine h ▸ ih (i + 1) e' (by rw [heq])
          · simp at h

theorem runCore_error_mem (v : Bool) (c : ComputeFn) (m : TrustModel) (t : Nat)
    (pos : List (Nat × Position)) (fov : List (Nat × Polygon))
    (trk : List (Nat × Tracks)) (cc : Tracks) :
    (runCore v c m t pos fov trk cc).2.2 = none ∨
    (runCore v c m t pos fov trk cc).2.2 = some .collaboratorFailure ∨
    (runCore v c m t pos fov trk cc).2.2 = some .diagnosticsFailure := by
  simp only [runCore]
  split
  · right; left; rfl
  · split
    · split
      · right; right; rfl
      · left; rfl
    · left; rfl

theorem trkPhase_cc (st : NodeState) (args : List Msg)
    (trk : List (Nat × Tracks)) (cc_msg : Msg) (cc_trk : Tracks)
    (h : trkPhase st args = .ok (trk, some (cc_msg, cc_trk))) :
    args.get? st.n_agents = some cc_msg ∧ cc_msg.payload = .tracks cc_trk ∧
      cc_msg.header.frame_id = "world" := by
  have hlen : (args.take (st.n_agents + 1)).length ≤ st.n_agents + 1 - 0 := by
    simp [List.length_take]
  have hcc := storeTracksAux_cc st.n_agents (args.take (st.n_agents + 1)) 0
    trk cc_msg cc_trk hlen h
  refine ⟨?_, hcc.2.1, hcc.2.2⟩
  have := hcc.1
  rwa [Nat.sub_zero, List.get?_take (Nat.lt_succ_self st.n_agents)] at this

/-! ### Concrete fixtures -/

/-- A trust model in its reset state with benign diagnostics. -/
def exModel : TrustModel := ⟨none, none, "d", "a", false⟩

/-- A tf buffer holding two poses for agent 0: one at 5 s, one at 20 s. -/
def exBuf : List PoseRec := [⟨0, 5000000000, (1, 1, 1)⟩, ⟨0, 20000000000, (2, 2, 2)⟩]

/-- A one-agent node, not verbose. -/
def exSt : NodeState := ⟨1, false, exBuf, exModel⟩

/-- A trust computation that always succeeds with fixed outputs. -/
def exCompute : ComputeFn := fun _ _ _ _ _ => .ok ⟨1, 2, 3, 4⟩

/-- A well-formed batch for one agent: agent-0 tracks at 10 s, command-center
tracks at 11 s, agent-0 FOV at 12 s, all in the world frame. -/
def exArgs : List Msg :=
  [⟨⟨"world", ⟨10, 0⟩⟩, .tracks [7]⟩,
   ⟨⟨"world", ⟨11, 0⟩⟩, .tracks [8]⟩,
   ⟨⟨"world", ⟨12, 0⟩⟩, .fov [(0, 0)]⟩]

/-- The same batch but with the agent-0 track message in a non-world frame. -/
def exArgsBad : List Msg :=
  [⟨⟨"odom", ⟨10, 0⟩⟩, .tracks [7]⟩,
   ⟨⟨"world", ⟨11, 0⟩⟩, .tracks [8]⟩,
   ⟨⟨"world", ⟨12, 0⟩⟩, .fov [(0, 0)]⟩]

/-- A later-arriving batch whose command-center stamp (5 s) precedes
`exArgs`'s command-center stamp (11 s). -/
def exArgsEarlier : List Msg :=
  [⟨⟨"world", ⟨4, 0⟩⟩, .tracks [9]⟩,
   ⟨⟨"world", ⟨5, 0⟩⟩, .tracks [10]⟩,
   ⟨⟨"world", ⟨6, 0⟩⟩, .fov [(1, 1)]⟩]

/-! ### Shared inversion helpers -/

theorem propTrack_inversion (st : NodeState) (compute : ComputeFn) (args : List Msg)
    (t : Nat) (h : Event.propTrack t ∈ (trks_fov_receive st compute args).trace) :
    ∃ trk cc_msg cc_trk fov pos,
      trkPhase st args = .ok (trk, some (cc_msg, cc_trk)) ∧
      (fovPhase st args).2 = .ok (fov, pos) ∧
      t = Bridge.rostime_to_time cc_msg.header.stamp ∧
      (trks_fov_receive st compute args).model =
        { st.model with lastPropTrack := some t, lastPropAgent := some t } := by
  rcases receive_cases st compute args with ⟨e, h1, hr⟩ | ⟨trk, cc, e, h1, h2, hr⟩ |
    ⟨trk, fov, pos, h1, h2, hr⟩ | ⟨trk, cm, ct, fov, pos, h1, h2, hr⟩
  · exfalso
    rw [hr] at h
    obtain ⟨k, hk⟩ := ev0_mem st args _ h
    simp at hk
  · exfalso
    rw [hr] at h
    exact (pre_not_prop st args t).1 h
  · exfalso
    rw [hr] at h
    exact (pre_not_prop st args t).1 h
  · refine ⟨trk, cm, ct, fov, pos, h1, h2, ?_⟩
    set tb := Bridge.rostime_to_time cm.header.stamp with htb
    have hteq : t = tb := by
      rw [hr] at h
      simp only [List.mem_append] at h
      rcases h with (h | h) | h
      · exact absurd (List.mem_append.mpr (Or.inl h)) (pre_not_prop st args t).1
      · exact absurd (List.mem_append.mpr (Or.inr h)) (pre_not_prop st args t).1
      · obtain ⟨rest, hshape, hpost⟩ :=
          runCore_trace st.verbose compute st.model tb pos fov trk ct
        rw [hshape] at h
        simp only [List.mem_cons] at h
        rcases h with h | h | h | h
        · exact Event.propTrack.inj h
        · exact absurd h (by simp)
        · exact absurd h (by simp)
        · have := hpost _ h
          simp [isPostEvent] at this
    subst hteq
    refine ⟨rfl, ?_⟩
    rw [hr]
    exact runCore_model st.verbose compute st.model tb pos fov trk ct

/-- C2 (amended statement, part of the `corrected` record): the callback
performs no ordering check before propagation — whenever a propagation event
with timestamp `t` occurs, `t` is the command-center stamp of the batch and it
is applied to the model unconditionally, for every prior model state,
including states whose last-propagated time exceeds `t`. -/
theorem C2_no_monotonicity_check (st : NodeState) (compute : ComputeFn)
    (args : List Msg) (t : Nat)
    (h : Event.propTrack t ∈ (trks_fov_receive st compute args).trace) :
    (trks_fov_receive st compute args).model.lastPropTrack = some t ∧
    (trks_fov_receive st compute args).model.lastPropAgent = some t := by
  obtain ⟨trk, cm, ct, fov, pos, h1, h2, ht, hm⟩ :=
    propTrack_inversion st compute args t h
  rw [hm]
  exact ⟨rfl, rfl⟩

/-- C2 witness: a node whose model was last propagated to 99 s still accepts
and applies a batch stamped 5 s. -/
theorem C2_no_monotonicity_check_witness :
    Event.propTrack 5000000000 ∈
      (trks_fov_receive ⟨1, false, exBuf, ⟨some 99000000000, some 99000000000, "d", "a", false⟩⟩
        exCompute exArgsEarlier).trace ∧
    (trks_fov_receive ⟨1, false, exBuf, ⟨some 99000000000, some 99000000000, "d", "a", false⟩⟩
        exCompute exArgsEarlier).model.lastPropTrack = some 5000000000 := by
  refine ⟨by decide, (C2_no_monotonicity_check _ exCompute exArgsEarlier 5000000000 (by decide)).1⟩

/-- C2 counterexample: processing `exArgs` (stamp 11 s) and then
`exArgsEarlier` (stamp 5 s) in that order invokes propagation with
5 s < 11 s and silently applies it — the batch is neither rejected nor
skipped, and the model time rolls backward. -/
theorem C2_counterexample :
    (processBatch (processBatch exSt exCompute exArgs).2 exCompute exArgsEarlier).1.error
        = none ∧
    (processBatch exSt exCompute exArgs).2.model.lastPropTrack = some 11000000000 ∧
    Event.propTrack 5000000000 ∈
      (processBatch (processBatch exSt exCompute exArgs).2 exCompute exArgsEarlier).1.trace ∧
    (processBatch (processBatch exSt exCompute exArgs).2 exCompute
        exArgsEarlier).2.model.lastPropTrack = some 5000000000 := by
  decide

/-- C7: whenever the callback propagates the trust model with timestamp `t`,
`t` is exactly the ROS-time conversion of the command-center track message's
header stamp — the message at positional index `n_agents` — and of no other
channel's stamp. -/
theorem C7_timestamp_from_cc (st : NodeState) (compute : ComputeFn)
    (args : List Msg) (t : Nat)
    (h : Event.propTrack t ∈ (trks_fov_receive st compute args).trace) :
    ∃ cc, args.get? st.n_agents = some cc ∧
      t = Bridge.rostime_to_time cc.header.stamp := by
  obtain ⟨trk, cm, ct, fov, pos, h1, h2, ht, -⟩ :=
    propTrack_inversion st compute args t h
  exact ⟨cm, (trkPhase_cc st args trk cm ct h1).1, ht⟩

/-- C7 witness: in the concrete batch the propagated timestamp is the
command-center stamp 11 s, not the agent track stamp 10 s nor the FOV
stamp 12 s. -/
theorem C7_timestamp_from_cc_witness :
    Event.propTrack 11000000000 ∈ (trks_fov_receive exSt exCompute exArgs).trace ∧
    ∃ cc, exArgs.get? exSt.n_agents = some cc ∧
      11000000000 = Bridge.rostime_to_time cc.header.stamp := by
  exact ⟨by decide, C7_timestamp_from_cc exSt exCompute exArgs 11000000000 (by decide)⟩

/-- C3 counterexample: with poses for agent 0 recorded at 5 s and 20 s and a
batch whose command-center timestamp is 11 s, the claim's
latest-known-at-or-before-batch-time semantics selects the 5 s pose
`(1, 1, 1)`, but the callback resolves `(2, 2, 2)` — the latest pose available
at processing time — so the claim is false at this input. -/
theorem C3_counterexample :
    (trks_fov_receive exSt exCompute exArgs).positions
        = [(0, ((2 : Int), (2 : Int), (2 : Int)))] ∧
    Bridge.rostime_to_time (⟨11, 0⟩ : RosTime) = 11000000000 ∧
    (lookupAtOrBefore exBuf 0 11000000000).map PoseRec.pos
        = some ((1 : Int), (1 : Int), (1 : Int)) ∧
    ((2 : Int), (2 : Int), (2 : Int)) ≠ ((1 : Int), (1 : Int), (1 : Int)) := by
  decide

/-- C3 (amended statement, part of the `corrected` record): every resolved
agent position is the position of the latest pose available in the tf buffer
for that agent at processing time (`lookup_transform` at `Time()`),
independent of the batch timestamp. -/
theorem C3_latest_pose_used (st : NodeState) (compute : ComputeFn)
    (args : List Msg) (a : Nat) (p : Position)
    (h : (a, p) ∈ (trks_fov_receive st compute args).positions) :
    ∃ rec, lookupLatest st.tf_buffer a = some rec ∧ p = rec.pos := by
  rcases receive_cases st compute args with ⟨e, h1, hr⟩ | ⟨trk, cc, e, h1, h2, hr⟩ |
    ⟨trk, fov, pos, h1, h2, hr⟩ | ⟨trk, cm, ct, fov, pos, h1, h2, hr⟩
  · rw [hr] at h
    simp at h
  · rw [hr] at h
    simp at h
  · rw [hr] at h
    simp at h
  · rw [hr] at h
    exact storeFovsAux_pos_mem st.tf_buffer _ 0 fov pos h2 a p h

/-- C3 witness for the amended statement: in the concrete run, the resolved
position `(2, 2, 2)` of agent 0 is exactly the pose with the greatest stamp in
the buffer. -/
theorem C3_latest_pose_used_witness :
    ((0, ((2 : Int), (2 : Int), (2 : Int))) ∈
      (trks_fov_receive exSt exCompute exArgs).positions) ∧
    ∃ rec, lookupLatest exSt.tf_buffer 0 = some rec ∧
      ((2 : Int), (2 : Int), (2 : Int)) = rec.pos := by
  exact ⟨by decide, C3_latest_pose_used exSt exCompute exArgs 0 _ (by decide)⟩

/-- C4: whenever the trust computation is invoked for a batch, the trace
decomposes as pre-events (logging, pose lookups only), then exactly
`propagate_track_trust` and `propagate_agent_trust` once each with the batch
timestamp immediately followed by the compute invocation, then only
publish/diagnostic events; the timestamp is the command-center stamp. -/
theorem C4_propagate_once_before_compute (st : NodeState) (compute : ComputeFn)
    (args : List Msg)
    (h : Event.computeCall ∈ (trks_fov_receive st compute args).trace) :
    ∃ t pre post,
      (trks_fov_receive st compute args).trace =
        pre ++ [Event.propTrack t, Event.propAgent t, Event.computeCall] ++ post ∧
      (∀ e ∈ pre, isPreEvent e = true) ∧
      (∀ e ∈ post, isPostEvent e = true) ∧
      ∃ cc, args.get? st.n_agents = some cc ∧
        t = Bridge.rostime_to_time cc.header.stamp := by
  rcases receive_cases st compute args with ⟨e, h1, hr⟩ | ⟨trk, cc, e, h1, h2, hr⟩ |
    ⟨trk, fov, pos, h1, h2, hr⟩ | ⟨trk, cm, ct, fov, pos, h1, h2, hr⟩
  · exfalso
    rw [hr] at h
    obtain ⟨k, hk⟩ := ev0_mem st args _ h
    simp at hk
  · exfalso
    rw [hr] at h
    exact (pre_not_prop st args 0).2.2 h
  · exfalso
    rw [hr] at h
    exact (pre_not_prop st args 0).2.2 h
  · obtain ⟨rest, hshape, hpost⟩ := runCore_trace st.verbose compute st.model
      (Bridge.rostime_to_time cm.header.stamp) pos fov trk ct
    refine ⟨Bridge.rostime_to_time cm.header.stamp,
      ev0 st args ++ (fovPhase st args).1, rest, ?_, pre_all_preEvent st args, hpost,
      cm, (trkPhase_cc st args trk cm ct h1).1, rfl⟩
    rw [hr]
    simp only [Result.trace]
    rw [hshape]
    simp [List.append_assoc]

/-- C4 witness: the concrete well-formed batch reaches the compute call. -/
theorem C4_propagate_once_before_compute_witness :
    Event.computeCall ∈ (trks_fov_receive exSt exCompute exArgs).trace ∧
    ∃ t pre post,
      (trks_fov_receive exSt exCompute exArgs).trace =
        pre ++ [Event.propTrack t, Event.propAgent t, Event.computeCall] ++ post ∧
      (∀ e ∈ pre, isPreEvent e = true) ∧
      (∀ e ∈ post, isPostEvent e = true) ∧
      ∃ cc, exArgs.get? exSt.n_agents = some cc ∧
        t = Bridge.rostime_to_time cc.header.stamp := by
  exact ⟨by decide, C4_propagate_once_before_compute exSt exCompute exArgs (by decide)⟩

/-- C6: if the callback aborts with a pose-lookup failure, then nothing was
published on any sink, trust propagation was never invoked, and the model is
unchanged; moreover in every run all pose lookups precede the first
propagation event (the trace splits into pre-events and a lookup-free core). -/
theorem C6_pose_failure_aborts_before_propagation (st : NodeState)
    (compute : ComputeFn) (args : List Msg) (i : Nat)
    (h : (trks_fov_receive st compute args).error = some (.lookupExc i)) :
    (trks_fov_receive st compute args).trace.filter isPub = [] ∧
    (∀ t, Event.propTrack t ∉ (trks_fov_receive st compute args).trace) ∧
    (∀ t, Event.propAgent t ∉ (trks_fov_receive st compute args).trace) ∧
    (trks_fov_receive st compute args).model = st.model ∧
    (∃ pre core, (trks_fov_receive st compute args).trace = pre ++ core ∧
      (∀ e ∈ pre, isPreEvent e = true) ∧ ∀ j, Event.poseLookup j ∉ core) := by
  rcases receive_cases st compute args with ⟨e, h1, hr⟩ | ⟨trk, cc, e, h1, h2, hr⟩ |
    ⟨trk, fov, pos, h1, h2, hr⟩ | ⟨trk, cm, ct, fov, pos, h1, h2, hr⟩
  · rw [hr]
    refine ⟨ev0_filter_pub st args, ?_, ?_, rfl, ev0 st args, [], by simp,
      fun e he => ?_, by simp⟩
    · intro t ht
      obtain ⟨k, hk⟩ := ev0_mem st args _ ht
      simp at hk
    · intro t ht
      obtain ⟨k, hk⟩ := ev0_mem st args _ ht
      simp at hk
    · obtain ⟨k, hk⟩ := ev0_mem st args _ (by simpa using he)
      rw [hk]
      rfl
  · rw [hr]
    exact ⟨pre_filter_pub st args,
      fun t => (pre_not_prop st args t).1,
      fun t => (pre_not_prop st args t).2.1, rfl,
      ev0 st args ++ (fovPhase st args).1, [], by simp,
      pre_all_preEvent st args, by simp⟩
  · rw [hr]
    exact ⟨pre_filter_pub st args,
      fun t => (pre_not_prop st args t).1,
      fun t => (pre_not_prop st args t).2.1, rfl,
      ev0 st args ++ (fovPhase st args).1, [], by simp,
      pre_all_preEvent st args, by simp⟩
  · exfalso
    rw [hr] at h
    simp only [Result.error] at h
    rcases runCore_error_mem st.verbose compute st.model
        (Bridge.rostime_to_time cm.header.stamp) pos fov trk ct with he | he | he <;>
      rw [he] at h <;> simp at h

/-- C6 witness: with an empty tf buffer the concrete batch aborts with a
lookup failure for agent 0 and the conclusions hold at that input. -/
theorem C6_pose_failure_witness :
    (trks_fov_receive ⟨1, false, [], exModel⟩ exCompute exArgs).error
        = some (.lookupExc 0) ∧
    ((trks_fov_receive ⟨1, false, [], exModel⟩ exCompute exArgs).trace.filter isPub
        = [] ∧
    (∀ t, Event.propTrack t ∉
      (trks_fov_receive ⟨1, false, [], exModel⟩ exCompute exArgs).trace) ∧
    (∀ t, Event.propAgent t ∉
      (trks_fov_receive ⟨1, false, [], exModel⟩ exCompute exArgs).trace) ∧
    (trks_fov_receive ⟨1, false, [], exModel⟩ exCompute exArgs).model = exModel ∧
    (∃ pre core,
      (trks_fov_receive ⟨1, false, [], exModel⟩ exCompute exArgs).trace
          = pre ++ core ∧
      (∀ e ∈ pre, isPreEvent e = true) ∧ ∀ j, Event.poseLookup j ∉ core)) := by
  exact ⟨by decide,
    C6_pose_failure_aborts_before_propagation ⟨1, false, [], exModel⟩
      exCompute exArgs 0 (by decide)⟩

/-- C1 counterexample: the batch `exArgsBad` containing one non-world item is
delivered to the callback (so the item was not excluded from matching), and
its effect is not confined to that item: the whole batch aborts with an
uncaught `NotImplementedError` and nothing is published, whereas the
identical batch with the frame fixed publishes on all four sinks.  This
refutes dropped-and-logged, item-local fatality. -/
theorem C1_counterexample :
    (trks_fov_receive exSt exCompute exArgsBad).error
        = some .notImplementedTracksFrame ∧
    (trks_fov_receive exSt exCompute exArgsBad).trace.filter isPub = [] ∧
    (trks_fov_receive exSt exCompute exArgs).error = none ∧
    (trks_fov_receive exSt exCompute exArgs).trace.filter isPub =
      [.pubAgentPsms 3, .pubTrackPsms 4, .pubAgentTrust 1, .pubTrackTrust 2] := by
  decide

/-- C1 (amended statement, part of the `corrected` record): a non-world item
is not filtered before matching — it reaches the callback inside a
synchronized batch, where the callback raises before any propagation or
publish, aborting the entire batch (the error escapes the callback instead of
being logged and swallowed, and the other items of the batch are discarded
with it). -/
theorem C1_frame_mismatch_aborts_batch (st : NodeState) (compute : ComputeFn)
    (args : List Msg) (msg : Msg)
    (hmem : msg ∈ args.take (2 * st.n_agents + 1))
    (hframe : msg.header.frame_id ≠ "world") :
    (trks_fov_receive st compute args).error.isSome = true ∧
    (trks_fov_receive st compute args).trace.filter isPub = [] ∧
    (∀ t, Event.propTrack t ∉ (trks_fov_receive st compute args).trace) ∧
    (trks_fov_receive st compute args).model = st.model := by
  rcases receive_cases st compute args with ⟨e, h1, hr⟩ | ⟨trk, cc, e, h1, h2, hr⟩ |
    ⟨trk, fov, pos, h1, h2, hr⟩ | ⟨trk, cm, ct, fov, pos, h1, h2, hr⟩
  · rw [hr]
    refine ⟨rfl, ev0_filter_pub st args, ?_, rfl⟩
    intro t ht
    obtain ⟨k, hk⟩ := ev0_mem st args _ ht
    simp at hk
  · rw [hr]
    exact ⟨rfl, pre_filter_pub st args, fun t => (pre_not_prop st args t).1, rfl⟩
  · rw [hr]
    exact ⟨rfl, pre_filter_pub st args, fun t => (pre_not_prop st args t).1, rfl⟩
  · exfalso
    have hsplit : args.take (2 * st.n_agents + 1) =
        args.take (st.n_agents + 1) ++ (args.drop (st.n_agents + 1)).take st.n_agents := by
      have h21 : 2 * st.n_agents + 1 = (st.n_agents + 1) + st.n_agents := by omega
      rw [h21, List.take_add]
    rw [hsplit] at hmem
    rcases List.mem_append.mp hmem with hm | hm
    · exact hframe (storeTracksAux_ok_frames st.n_agents _ 0 _ h1 msg hm)
    · exact hframe (storeFovsAux_ok_frames st.tf_buffer _ 0 _ h2 msg hm)

/-- C1 witness for the amended statement, at the concrete bad batch. -/
theorem C1_frame_mismatch_witness :
    ((⟨⟨"odom", ⟨10, 0⟩⟩, .tracks [7]⟩ : Msg) ∈ exArgsBad.take (2 * exSt.n_agents + 1)) ∧
    ((⟨⟨"odom", ⟨10, 0⟩⟩, .tracks [7]⟩ : Msg).header.frame_id ≠ "world") ∧
    ((trks_fov_receive exSt exCompute exArgsBad).error.isSome = true ∧
     (trks_fov_receive exSt exCompute exArgsBad).trace.filter isPub = [] ∧
     (∀ t, Event.propTrack t ∉ (trks_fov_receive exSt exCompute exArgsBad).trace) ∧
     (trks_fov_receive exSt exCompute exArgsBad).model = exSt.model) := by
  exact ⟨by decide, by decide,
    C1_frame_mismatch_aborts_batch exSt exCompute exArgsBad
      ⟨⟨"odom", ⟨10, 0⟩⟩, .tracks [7]⟩ (by decide) (by decide)⟩

/-- C5: publication is batch-atomic.  If the trust computation raises, no sink
publishes and the model is exactly the post-propagation state (propagation is
not undone); in any run that reaches the compute call and does not end in a
collaborator failure, all four sinks publish exactly once, in order. -/
theorem C5_atomic_publish (st : NodeState) (compute : ComputeFn) (args : List Msg)
    (r : Result) (hr0 : r = trks_fov_receive st compute args) :
    (r.error = some .collaboratorFailure →
      r.trace.filter isPub = [] ∧
      ∃ t, r.model =
        { st.model with lastPropTrack := some t, lastPropAgent := some t }) ∧
    (Event.computeCall ∈ r.trace → r.error ≠ some .collaboratorFailure →
      ∃ a b c d, r.trace.filter isPub =
        [.pubAgentPsms a, .pubTrackPsms b, .pubAgentTrust c, .pubTrackTrust d]) := by
  subst hr0
  rcases receive_cases st compute args with ⟨e, h1, hr⟩ | ⟨trk, cc, e, h1, h2, hr⟩ |
    ⟨trk, fov, pos, h1, h2, hr⟩ | ⟨trk, cm, ct, fov, pos, h1, h2, hr⟩
  · constructor
    · intro he
      exfalso
      rw [hr] at he
      simp only [Option.some.injEq] at he
      rcases storeTracksAux_error_mem st.n_agents _ 0 e h1 with rfl | rfl | rfl <;>
        simp at he
    · intro hc
      exfalso
      rw [hr] at hc
      obtain ⟨k, hk⟩ := ev0_mem st args _ hc
      simp at hk
  · constructor
    · intro he
      exfalso
      rw [hr] at he
      simp only [Option.some.injEq] at he
      rcases storeFovsAux_error_mem st.tf_buffer _ 0 e h2 with rfl | rfl | ⟨j, rfl⟩ <;>
        simp at he
    · intro hc
      exfalso
      rw [hr] at hc
      exact (pre_not_prop st args 0).2.2 hc
  · constructor
    · intro he
      exfalso
      rw [hr] at he
      simp at he
    · intro hc
      exfalso
      rw [hr] at hc
      exact (pre_not_prop st args 0).2.2 hc
  · set tb := Bridge.rostime_to_time cm.header.stamp with htb
    constructor
    · intro he
      rw [hr] at he
      simp only at he
      have hcerr := runCore_collab_inv st.verbose compute st.model tb pos fov trk ct he
      have hcore := runCore_compute_error st.verbose compute st.model tb pos fov trk ct hcerr
      rw [hr, hcore]
      constructor
      · simp only [List.filter_append, pre_filter_pub st args]
        simp [isPub]
      · exact ⟨tb, rfl⟩
    · intro hc hne
      rw [hr] at hne
      simp only at hne
      obtain ⟨o, ho⟩ := runCore_error_none_pubs st.verbose compute st.model tb pos fov trk ct hne
      have hpubs := runCore_pubs_ok st.verbose compute st.model tb pos fov trk ct o ho
      refine ⟨TrustBridge.psm_array_to_ros o.psms_agents,
        TrustBridge.psm_array_to_ros o.psms_tracks,
        TrustBridge.trust_array_to_ros o.trust_agents,
        TrustBridge.trust_array_to_ros o.trust_tracks, ?_⟩
      rw [hr]
      simp only [List.filter_append, pre_filter_pub st args, hpubs]
      simp

/-- A trust computation that always raises. -/
def exComputeFail : ComputeFn := fun _ _ _ _ _ => .error ()

/-- C5 witness: at a concrete batch whose trust computation raises, the
conclusions hold (no publish, model left at its post-propagation value). -/
theorem C5_atomic_publish_witness :
    ((trks_fov_receive exSt exComputeFail exArgs).error = some .collaboratorFailure →
      (trks_fov_receive exSt exComputeFail exArgs).trace.filter isPub = [] ∧
      ∃ t, (trks_fov_receive exSt exComputeFail exArgs).model =
        { exSt.model with lastPropTrack := some t, lastPropAgent := some t }) ∧
    (Event.computeCall ∈ (trks_fov_receive exSt exComputeFail exArgs).trace →
      (trks_fov_receive exSt exComputeFail exArgs).error ≠ some .collaboratorFailure →
      ∃ a b c d, (trks_fov_receive exSt exComputeFail exArgs).trace.filter isPub =
        [.pubAgentPsms a, .pubTrackPsms b, .pubAgentTrust c, .pubTrackTrust d]) :=
  C5_atomic_publish exSt exComputeFail exArgs
    (trks_fov_receive exSt exComputeFail exArgs) rfl

/-- A verbose node whose measurement diagnostics raise when read. -/
def exStDiagFail : NodeState := ⟨1, true, exBuf, ⟨none, none, "d", "a", true⟩⟩

/-- C9 counterexample: the diagnostics block has no exception handler — on a
concrete batch where reading the diagnostics raises, the failure escapes the
callback as the batch's error instead of being swallowed, even though all
four publishes already happened. -/
theorem C9_counterexample :
    (trks_fov_receive exStDiagFail exCompute exArgs).error
        = some .diagnosticsFailure ∧
    (trks_fov_receive exStDiagFail exCompute exArgs).trace.filter isPub =
      [.pubAgentPsms 3, .pubTrackPsms 4, .pubAgentTrust 1, .pubTrackTrust 2] := by
  decide

/-- C9 (amended statement, part of the `corrected` record): a diagnostics
failure can only occur on a verbose node and only after all four publishes
have completed — it cannot affect the batch's publications — but it is not
caught: it propagates out of the callback as the batch's error. -/
theorem C9_diag_failure_after_publish (st : NodeState) (compute : ComputeFn)
    (args : List Msg)
    (h : (trks_fov_receive st compute args).error = some .diagnosticsFailure) :
    st.verbose = true ∧
    ∃ a b c d, (trks_fov_receive st compute args).trace.filter isPub =
      [.pubAgentPsms a, .pubTrackPsms b, .pubAgentTrust c, .pubTrackTrust d] := by
  rcases receive_cases st compute args with ⟨e, h1, hr⟩ | ⟨trk, cc, e, h1, h2, hr⟩ |
    ⟨trk, fov, pos, h1, h2, hr⟩ | ⟨trk, cm, ct, fov, pos, h1, h2, hr⟩
  · exfalso
    rw [hr] at h
    simp only [Option.some.injEq] at h
    rcases storeTracksAux_error_mem st.n_agents _ 0 e h1 with rfl | rfl | rfl <;>
      simp at h
  · exfalso
    rw [hr] at h
    simp only [Option.some.injEq] at h
    rcases storeFovsAux_error_mem st.tf_buffer _ 0 e h2 with rfl | rfl | ⟨j, rfl⟩ <;>
      simp at h
  · exfalso
    rw [hr] at h
    simp at h
  · set tb := Bridge.rostime_to_time cm.header.stamp with htb
    rw [hr] at h
    simp only at h
    obtain ⟨o, ho, hv⟩ := runCore_diag_inv st.verbose compute st.model tb pos fov trk ct h
    have hpubs := runCore_pubs_ok st.verbose compute st.model tb pos fov trk ct o ho
    refine ⟨hv, TrustBridge.psm_array_to_ros o.psms_agents,
      TrustBridge.psm_array_to_ros o.psms_tracks,
      TrustBridge.trust_array_to_ros o.trust_agents,
      TrustBridge.trust_array_to_ros o.trust_tracks, ?_⟩
    rw [hr]
    simp only [List.filter_append, pre_filter_pub st args, hpubs]
    simp

/-- C9 witness for the amended statement, at the concrete diagnostics-failing
node. -/
theorem C9_diag_failure_witness :
    (trks_fov_receive exStDiagFail exCompute exArgs).error
        = some .diagnosticsFailure ∧
    (exStDiagFail.verbose = true ∧
     ∃ a b c d, (trks_fov_receive exStDiagFail exCompute exArgs).trace.filter isPub =
       [.pubAgentPsms a, .pubTrackPsms b, .pubAgentTrust c, .pubTrackTrust d]) := by
  exact ⟨by decide, C9_diag_failure_after_publish exStDiagFail exCompute exArgs (by decide)⟩

theorem fov_filter_pub (st : NodeState) (args : List Msg) :
    ((fovPhase st args).1).filter isPub = [] := by
  rw [List.filter_eq_nil]
  intro e he
  obtain ⟨j, rfl⟩ := fovPhase_mem st args e he
  simp [isPub]

theorem runCore_true_ok_fail (c : ComputeFn) (m : TrustModel) (t : Nat)
    (pos : List (Nat × Position)) (fov : List (Nat × Polygon))
    (trk : List (Nat × Tracks)) (cc : Tracks) (o : Outputs)
    (hc : c (propagate_agent_trust (propagate_track_trust m t) t) pos fov trk cc
      = .ok o)
    (hd : m.diagFails = true) :
    (runCore true c m t pos fov trk cc).1 =
      [.propTrack t, .propAgent t, .computeCall,
       .pubAgentPsms (TrustBridge.psm_array_to_ros o.psms_agents),
       .pubTrackPsms (TrustBridge.psm_array_to_ros o.psms_tracks),
       .pubAgentTrust (TrustBridge.trust_array_to_ros o.trust_agents),
       .pubTrackTrust (TrustBridge.trust_array_to_ros o.trust_tracks)] := by
  simp only [runCore, hc]
  simp [propagate_agent_trust, propagate_track_trust, hd]

theorem runCore_true_ok_nofail (c : ComputeFn) (m : TrustModel) (t : Nat)
    (pos : List (Nat × Position)) (fov : List (Nat × Polygon))
    (trk : List (Nat × Tracks)) (cc : Tracks) (o : Outputs)
    (hc : c (propagate_agent_trust (propagate_track_trust m t) t) pos fov trk cc
      = .ok o)
    (hd : m.diagFails = false) :
    (runCore true c m t pos fov trk cc).1 =
      [.propTrack t, .propAgent t, .computeCall,
       .pubAgentPsms (TrustBridge.psm_array_to_ros o.psms_agents),
       .pubTrackPsms (TrustBridge.psm_array_to_ros o.psms_tracks),
       .pubAgentTrust (TrustBridge.trust_array_to_ros o.trust_agents),
       .pubTrackTrust (TrustBridge.trust_array_to_ros o.trust_tracks),
       .logDiag m.diag, .logDiag m.assignDiag] := by
  simp only [runCore, hc]
  simp [propagate_agent_trust, propagate_track_trust, hd]

/-- C10: from identical node state apart from the `verbose` flag, a batch
produces identical publications on all four sinks and an identical trust
model; the flag only adds log output, and diagnostics are read and logged
only after all four publishes have completed. -/
theorem C10_verbose_noninterference (n : Nat) (buf : List PoseRec) (m : TrustModel)
    (compute : ComputeFn) (args : List Msg) :
    (trks_fov_receive ⟨n, true, buf, m⟩ compute args).trace.filter isPub =
      (trks_fov_receive ⟨n, false, buf, m⟩ compute args).trace.filter isPub ∧
    (trks_fov_receive ⟨n, true, buf, m⟩ compute args).model =
      (trks_fov_receive ⟨n, false, buf, m⟩ compute args).model ∧
    (∀ s, Event.logDiag s ∈ (trks_fov_receive ⟨n, true, buf, m⟩ compute args).trace →
      ∃ pre suf a b c d,
        (trks_fov_receive ⟨n, true, buf, m⟩ compute args).trace =
          pre ++ [.pubAgentPsms a, .pubTrackPsms b, .pubAgentTrust c, .pubTrackTrust d]
            ++ suf ∧
        Event.logDiag s ∈ suf) := by
  rcases h1 : storeTracksAux n 0 (args.take (n + 1)) with e | ⟨trk, ccOpt⟩
  · have hrT : trks_fov_receive ⟨n, true, buf, m⟩ compute args =
        ⟨ev0 ⟨n, true, buf, m⟩ args, m, [], [], [], [], some e⟩ := by
      rw [trks_fov_receive,
        show trkPhase ⟨n, true, buf, m⟩ args = .error e from h1]
    have hrF : trks_fov_receive ⟨n, false, buf, m⟩ compute args =
        ⟨ev0 ⟨n, false, buf, m⟩ args, m, [], [], [], [], some e⟩ := by
      rw [trks_fov_receive,
        show trkPhase ⟨n, false, buf, m⟩ args = .error e from h1]
    refine ⟨?_, ?_, ?_⟩
    · rw [hrT, hrF]
      show (ev0 ⟨n, true, buf, m⟩ args).filter isPub =
        (ev0 ⟨n, false, buf, m⟩ args).filter isPub
      rw [ev0_filter_pub, ev0_filter_pub]
    · rw [hrT, hrF]
    · intro s hs
      exfalso
      rw [hrT] at hs
      obtain ⟨k, hk⟩ := ev0_mem ⟨n, true, buf, m⟩ args _ hs
      simp at hk
  · rcases h2 : (storeFovsAux buf 0 ((args.drop (n + 1)).take n)).2 with e | ⟨fov, pos⟩
    · have hrT : trks_fov_receive ⟨n, true, buf, m⟩ compute args =
          ⟨ev0 ⟨n, true, buf, m⟩ args ++ (fovPhase ⟨n, true, buf, m⟩ args).1,
           m, [], [], [], [], some e⟩ := by
        rw [trks_fov_receive,
          show trkPhase ⟨n, true, buf, m⟩ args = .ok (trk, ccOpt) from h1,
          show (fovPhase ⟨n, true, buf, m⟩ args).2 = .error e from h2]
      have hrF : trks_fov_receive ⟨n, false, buf, m⟩ compute args =
          ⟨ev0 ⟨n, false, buf, m⟩ args ++ (fovPhase ⟨n, false, buf, m⟩ args).1,
           m, [], [], [], [], some e⟩ := by
        rw [trks_fov_receive,
          show trkPhase ⟨n, false, buf, m⟩ args = .ok (trk, ccOpt) from h1,
          show (fovPhase ⟨n, false, buf, m⟩ args).2 = .error e from h2]
      refine ⟨?_, ?_, ?_⟩
      · rw [hrT, hrF]
        show (ev0 ⟨n, true, buf, m⟩ args ++ (fovPhase ⟨n, true, buf, m⟩ args).1).filter isPub =
          (ev0 ⟨n, false, buf, m⟩ args ++ (fovPhase ⟨n, false, buf, m⟩ args).1).filter isPub
        rw [pre_filter_pub, pre_filter_pub]
      · rw [hrT, hrF]
      · intro s hs
        exfalso
        rw [hrT] at hs
        rcases List.mem_append.mp hs with h | h
        · obtain ⟨k, hk⟩ := ev0_mem ⟨n, true, buf, m⟩ args _ h
          simp at hk
        · obtain ⟨j, hj⟩ := fovPhase_mem ⟨n, true, buf, m⟩ args _ h
          simp at hj
    · rcases ccOpt with - | ⟨cm, ct⟩
      · have hrT : trks_fov_receive ⟨n, true, buf, m⟩ compute args =
            ⟨ev0 ⟨n, true, buf, m⟩ args ++ (fovPhase ⟨n, true, buf, m⟩ args).1,
             m, [], [], [], [], some .nameErr⟩ := by
          rw [trks_fov_receive,
            show trkPhase ⟨n, true, buf, m⟩ args = .ok (trk, none) from h1,
            show (fovPhase ⟨n, true, buf, m⟩ args).2 = .ok (fov, pos) from h2]
        have hrF : trks_fov_receive ⟨n, false, buf, m⟩ compute args =
            ⟨ev0 ⟨n, false, buf, m⟩ args ++ (fovPhase ⟨n, false, buf, m⟩ args).1,
             m, [], [], [], [], some .nameErr⟩ := by
          rw [trks_fov_receive,
            show trkPhase ⟨n, false, buf, m⟩ args = .ok (trk, none) from h1,
            show (fovPhase ⟨n, false, buf, m⟩ args).2 = .ok (fov, pos) from h2]
        refine ⟨?_, ?_, ?_⟩
        · rw [hrT, hrF]
          show (ev0 ⟨n, true, buf, m⟩ args ++ (fovPhase ⟨n, true, buf, m⟩ args).1).filter isPub =
            (ev0 ⟨n, false, buf, m⟩ args ++ (fovPhase ⟨n, false, buf, m⟩ args).1).filter isPub
          rw [pre_filter_pub, pre_filter_pub]
        · rw [hrT, hrF]
        · intro s hs
          exfalso
          rw [hrT] at hs
          rcases List.mem_append.mp hs with h | h
          · obtain ⟨k, hk⟩ := ev0_mem ⟨n, true, buf, m⟩ args _ h
            simp at hk
          · obtain ⟨j, hj⟩ := fovPhase_mem ⟨n, true, buf, m⟩ args _ h
            simp at hj
      · have hrT : trks_fov_receive ⟨n, true, buf, m⟩ compute args =
            ⟨ev0 ⟨n, true, buf, m⟩ args ++ (fovPhase ⟨n, true, buf, m⟩ args).1 ++
              (runCore true compute m (Bridge.rostime_to_time cm.header.stamp)
                pos fov trk ct).1,
             (runCore true compute m (Bridge.rostime_to_time cm.header.stamp)
                pos fov trk ct).2.1, pos, fov, trk, ct,
             (runCore true compute m (Bridge.rostime_to_time cm.header.stamp)
                pos fov trk ct).2.2⟩ := by
          rw [trks_fov_receive,
            show trkPhase ⟨n, true, buf, m⟩ args = .ok (trk, some (cm, ct)) from h1,
            show (fovPhase ⟨n, true, buf, m⟩ args).2 = .ok (fov, pos) from h2]
        have hrF : trks_fov_receive ⟨n, false, buf, m⟩ compute args =
            ⟨ev0 ⟨n, false, buf, m⟩ args ++ (fovPhase ⟨n, false, buf, m⟩ args).1 ++
              (runCore false compute m (Bridge.rostime_to_time cm.header.stamp)
                pos fov trk ct).1,
             (runCore false compute m (Bridge.rostime_to_time cm.header.stamp)
                pos fov trk ct).2.1, pos, fov, trk, ct,
             (runCore false compute m (Bridge.rostime_to_time cm.header.stamp)
                pos fov trk ct).2.2⟩ := by
          rw [trks_fov_receive,
            show trkPhase ⟨n, false, buf, m⟩ args = .ok (trk, some (cm, ct)) from h1,
            show (fovPhase ⟨n, false, buf, m⟩ args).2 = .ok (fov, pos) from h2]
        refine ⟨?_, ?_, ?_⟩
        · rw [hrT, hrF]
          show (ev0 ⟨n, true, buf, m⟩ args ++ (fovPhase ⟨n, true, buf, m⟩ args).1 ++
              (runCore true compute m (Bridge.rostime_to_time cm.header.stamp)
                pos fov trk ct).1).filter isPub =
            (ev0 ⟨n, false, buf, m⟩ args ++ (fovPhase ⟨n, false, buf, m⟩ args).1 ++
              (runCore false compute m (Bridge.rostime_to_time cm.header.stamp)
                pos fov trk ct).1).filter isPub
          rw [List.filter_append, List.filter_append, List.filter_append,
            List.filter_append, ev0_filter_pub, ev0_filter_pub, fov_filter_pub,
            fov_filter_pub, runCore_filter_pub_verbose]
        · rw [hrT, hrF]
          show (runCore true compute m (Bridge.rostime_to_time cm.header.stamp)
              pos fov trk ct).2.1 =
            (runCore false compute m (Bridge.rostime_to_time cm.header.stamp)
              pos fov trk ct).2.1
          rw [runCore_model, runCore_model]
        · intro s hs
          rw [hrT] at hs
          replace hs : Event.logDiag s ∈
              ev0 ⟨n, true, buf, m⟩ args ++ (fovPhase ⟨n, true, buf, m⟩ args).1 ++
                (runCore true compute m (Bridge.rostime_to_time cm.header.stamp)
                  pos fov trk ct).1 := hs
          rcases List.mem_append.mp hs with h | h
          · exfalso
            rcases List.mem_append.mp h with h | h
            · obtain ⟨k, hk⟩ := ev0_mem ⟨n, true, buf, m⟩ args _ h
              simp at hk
            · obtain ⟨j, hj⟩ := fovPhase_mem ⟨n, true, buf, m⟩ args _ h
              simp at hj
          · rcases hc : compute (propagate_agent_trust (propagate_track_trust m
                (Bridge.rostime_to_time cm.header.stamp))
                (Bridge.rostime_to_time cm.header.stamp)) pos fov trk ct with u | o
            · exfalso
              cases u
              rw [runCore_compute_error true compute m
                (Bridge.rostime_to_time cm.header.stamp) pos fov trk ct hc] at h
              simp at h
            · rcases hd : m.diagFails with - | -
              · refine ⟨ev0 ⟨n, true, buf, m⟩ args ++ (fovPhase ⟨n, true, buf, m⟩ args).1 ++
                  [.propTrack (Bridge.rostime_to_time cm.header.stamp),
                   .propAgent (Bridge.rostime_to_time cm.header.stamp), .computeCall],
                  [.logDiag m.diag, .logDiag m.assignDiag],
                  TrustBridge.psm_array_to_ros o.psms_agents,
                  TrustBridge.psm_array_to_ros o.psms_tracks,
                  TrustBridge.trust_array_to_ros o.trust_agents,
                  TrustBridge.trust_array_to_ros o.trust_tracks, ?_, ?_⟩
                · rw [hrT]
                  show ev0 ⟨n, true, buf, m⟩ args ++ (fovPhase ⟨n, true, buf, m⟩ args).1 ++
                      (runCore true compute m (Bridge.rostime_to_time cm.header.stamp)
                        pos fov trk ct).1 = _
                  rw [runCore_true_ok_nofail compute m
                    (Bridge.rostime_to_time cm.header.stamp) pos fov trk ct o hc hd]
                  simp [List.append_assoc]
                · rw [runCore_true_ok_nofail compute m
                    (Bridge.rostime_to_time cm.header.stamp) pos fov trk ct o hc hd] at h
                  simpa using h
              · exfalso
                rw [runCore_true_ok_fail compute m
                  (Bridge.rostime_to_time cm.header.stamp) pos fov trk ct o hc hd] at h
                simp at h

/-- C8: the synchronizer is constructed over exactly `2 n + 1` channels — the
`n` agent-track channels, then the command-center track channel, then the `n`
agent-FOV channels — with the bounded queue (10) and the configured slop
(0.05); and, for a full batch of `2 n + 1` arguments that reaches the
compute call, the callback partitions the arguments positionally: arguments
`0 .. n-1` are the per-agent track lists, argument `n` is the command-center
track list, and arguments `n+1 .. 2 n` are the FOV polygons of agents
`0 .. n-1`. -/
theorem C8_channel_arity_and_partition :
    (∀ n, (TrustEstimatorNode.makeSynchronizer n).channels.length = 2 * n + 1 ∧
      (TrustEstimatorNode.makeSynchronizer n).queue_size = 10 ∧
      (TrustEstimatorNode.makeSynchronizer n).slop = 5 / 100 ∧
      (∀ i, i < n → (TrustEstimatorNode.makeSynchronizer n).channels.get? i =
        some (.agentTracks i)) ∧
      (TrustEstimatorNode.makeSynchronizer n).channels.get? n = some .ccTracks ∧
      (∀ i, i < n →
        (TrustEstimatorNode.makeSynchronizer n).channels.get? (n + 1 + i) =
          some (.agentFov i))) ∧
    (∀ (st : NodeState) (compute : ComputeFn) (args : List Msg),
      args.length = 2 * st.n_agents + 1 →
      Event.computeCall ∈ (trks_fov_receive st compute args).trace →
      (trks_fov_receive st compute args).tracksUsed.length = st.n_agents ∧
      (∀ i, i < st.n_agents → ∃ m ts, args.get? i = some m ∧
        m.payload = .tracks ts ∧
        (trks_fov_receive st compute args).tracksUsed.get? i = some (i, ts)) ∧
      (∃ m, args.get? st.n_agents = some m ∧
        m.payload = .tracks (trks_fov_receive st compute args).ccUsed) ∧
      (trks_fov_receive st compute args).fovsUsed.length = st.n_agents ∧
      (∀ i, i < st.n_agents → ∃ m p, args.get? (st.n_agents + 1 + i) = some m ∧
        m.payload = .fov p ∧
        (trks_fov_receive st compute args).fovsUsed.get? i = some (i, p))) := by
  constructor
  · intro n
    refine ⟨?_, rfl, rfl, ?_, ?_, ?_⟩
    · simp [TrustEstimatorNode.makeSynchronizer]
      omega
    · intro i hi
      simp only [TrustEstimatorNode.makeSynchronizer]
      rw [List.get?_append (by simp; omega), List.get?_append (by simp; omega)]
      simp [List.getElem?_range hi]
    · simp only [TrustEstimatorNode.makeSynchronizer]
      rw [List.get?_append (by simp), List.get?_append_right (by simp)]
      simp
    · intro i hi
      simp only [TrustEstimatorNode.makeSynchronizer]
      rw [List.get?_append_right (by simp)]
      have hidx : n + 1 + i -
          (List.map ChannelKind.agentTracks (List.range n)
            ++ [ChannelKind.ccTracks]).length = i := by
        simp
      rw [hidx]
      simp [List.getElem?_range hi]
  · intro st compute args hlen hc
    rcases receive_cases st compute args with ⟨e, h1, hr⟩ | ⟨trk, cc, e, h1, h2, hr⟩ |
      ⟨trk, fov, pos, h1, h2, hr⟩ | ⟨trk, cm, ct, fov, pos, h1, h2, hr⟩
    · exfalso
      rw [hr] at hc
      obtain ⟨k, hk⟩ := ev0_mem st args _ hc
      simp at hk
    · exfalso
      rw [hr] at hc
      exact (pre_not_prop st args 0).2.2 hc
    · exfalso
      rw [hr] at hc
      exact (pre_not_prop st args 0).2.2 hc
    · have htkl : (args.take (st.n_agents + 1)).length = st.n_agents + 1 := by
        simp [List.length_take]
        omega
      have hfvl : ((args.drop (st.n_agents + 1)).take st.n_agents).length
          = st.n_agents := by
        simp [List.length_take, List.length_drop]
        omega
      refine ⟨?_, ?_, ?_, ?_, ?_⟩
      · rw [hr]
        show trk.length = st.n_agents
        rw [storeTracksAux_length st.n_agents _ 0 trk _ h1, htkl]
        omega
      · intro i hi
        obtain ⟨m, ts, hm, hpl, hget⟩ := storeTracksAux_get st.n_agents
          (args.take (st.n_agents + 1)) 0 trk _ h1 i (by omega)
          (by rw [htkl]; omega)
        refine ⟨m, ts, ?_, hpl, ?_⟩
        · rwa [List.get?_take (by omega : i < st.n_agents + 1)] at hm
        · rw [hr]
          show trk.get? i = some (i, ts)
          simpa using hget
      · obtain ⟨hcm, hpl, -⟩ := trkPhase_cc st args trk cm ct h1
        refine ⟨cm, hcm, ?_⟩
        rw [hr]
        exact hpl
      · rw [hr]
        show fov.length = st.n_agents
        rw [(storeFovsAux_length st.tf_buffer _ 0 fov pos h2).1, hfvl]
      · intro i hi
        obtain ⟨m, p, rc, hm, hpl, hg1, -, -⟩ := storeFovsAux_get st.tf_buffer
          ((args.drop (st.n_agents + 1)).take st.n_agents) 0 fov pos h2 i
          (by rw [hfvl]; omega)
        refine ⟨m, p, ?_, hpl, ?_⟩
        · rw [List.get?_take (by omega : i < st.n_agents)] at hm
          rwa [List.get?_drop] at hm
        · rw [hr]
          show fov.get? i = some (i, p)
          simpa using hg1

/-- C8 witness: the concrete three-message batch for one agent satisfies the
positional-partition conclusions. -/
theorem C8_partition_witness :
    exArgs.length = 2 * exSt.n_agents + 1 ∧
    Event.computeCall ∈ (trks_fov_receive exSt exCompute exArgs).trace ∧
    ((trks_fov_receive exSt exCompute exArgs).tracksUsed.length = exSt.n_agents ∧
     (∀ i, i < exSt.n_agents → ∃ m ts, exArgs.get? i = some m ∧
       m.payload = .tracks ts ∧
       (trks_fov_receive exSt exCompute exArgs).tracksUsed.get? i = some (i, ts)) ∧
     (∃ m, exArgs.get? exSt.n_agents = some m ∧
       m.payload = .tracks (trks_fov_receive exSt exCompute exArgs).ccUsed) ∧
     (trks_fov_receive exSt exCompute exArgs).fovsUsed.length = exSt.n_agents ∧
     (∀ i, i < exSt.n_agents → ∃ m p,
       exArgs.get? (exSt.n_agents + 1 + i) = some m ∧ m.payload = .fov p ∧
       (trks_fov_receive exSt exCompute exArgs).fovsUsed.get? i = some (i, p))) := by
  exact ⟨by decide, by decide,
    C8_channel_arity_and_partition.2 exSt exCompute exArgs (by decide) (by decide)⟩
